import Mathlib

/-!
Verification of the path handling core of `src/main/cpp/util/path_windows.cc`
(namespace `blaze_util`).  Character strings are embedded as `List Char`
without the terminating NUL; the narrow and the wide variants of the source
are embedded once, since the algorithms are word-for-word identical.
External collaborators (the current working directory, the OS short-name
query, case folding) are passed in as explicit parameters.
-/

namespace BlazeUtil

/-- A path string: the characters of a `std::string`, NUL terminator dropped. -/
abbrev PathStr := List Char

/-- Embeds `IsPathSeparator` (path_windows.cc, lines 53-56): a forward or backward slash. -/
def IsPathSeparator (c : Char) : Bool := c == '/' || c == '\\'

/-- Embeds `HasDriveSpecifierPrefix` (path_windows.cc, lines 58-61): the first
character is alphabetic and the second is a colon.  Reading `ch[1]` of a
one-character C string yields the NUL terminator, never a colon, so a list
of fewer than two characters never matches. -/
def HasDriveSpecifier (s : PathStr) : Bool :=
  match s with
  | c0 :: c1 :: _ => c0.isAlpha && c1 == ':'
  | _ => false

/-- Modelled from the spec: the long-path-marker test `HasUncPrefix`
(declared in src/main/native/windows/file.h, which is outside src/).  Per
the spec's LongPathMarker entity and the comments at path_windows.cc lines
127-131, it recognizes the fixed 4-character prefix and its two
structurally equivalent variants, i.e. a leading one of the three
4-character texts backslash-backslash-question-backslash,
backslash-question-question-backslash, backslash-backslash-dot-backslash. -/
def HasLongPathMarker (s : PathStr) : Bool :=
  match s with
  | a :: b :: c :: d :: _ =>
      a == '\\' && ((b == '\\' && (c == '?' || c == '.')) || (b == '?' && c == '?')) &&
        d == '\\'
  | _ => false

/-- Embeds `RemoveUncPrefixMaybe` (path_windows.cc, lines 115-117): skip the
4-character long-path marker when present. -/
def RemoveUncPrefixMaybe (s : PathStr) : PathStr :=
  if HasLongPathMarker s then s.drop 4 else s

/-- Embeds `IsRootOrAbsolute` (path_windows.cc, lines 124-143). -/
def IsRootOrAbsolute (path : PathStr) (must_be_root : Bool) : Bool :=
  ((if must_be_root then path.length == 1 else !path.isEmpty) &&
     IsPathSeparator (path.headD ' ')) ||
  ((if must_be_root then path.length == 3 else decide (3 ≤ path.length)) &&
     HasDriveSpecifier path && IsPathSeparator (path.getD 2 ' ')) ||
  ((if must_be_root then path.length == 7 else decide (7 ≤ path.length)) &&
     HasLongPathMarker path && HasDriveSpecifier (path.drop 4) &&
     IsPathSeparator (path.getD 6 ' '))

/-- Embeds `IsRootDirectory` (path_windows.cc, lines 349-351). -/
def IsRootDirectory (path : PathStr) : Bool := IsRootOrAbsolute path true

/-- Embeds `IsAbsolute` (path_windows.cc, lines 353-355). -/
def IsAbsolute (path : PathStr) : Bool := IsRootOrAbsolute path false

/-- Embeds `IsRootDirectoryW` (path_windows.cc, lines 357-359); identical to the
narrow variant in this embedding. -/
def IsRootDirectoryW (path : PathStr) : Bool := IsRootOrAbsolute path true

/-- Embeds `IsDevNull` (path_windows.cc, lines 341-347): non-empty, and either
exactly the 9 characters of the text slash-dev-slash-null (the `strncmp`
with bound 10 compares both NUL terminators) or a 3-character
case-insensitive `nul` (the `path[3] == 0` test pins the length at 3). -/
def IsDevNull (path : PathStr) : Bool :=
  !path.isEmpty &&
    (path == ['/', 'd', 'e', 'v', '/', 'n', 'u', 'l', 'l'] ||
      (match path with
       | [c0, c1, c2] =>
           (c0 == 'N' || c0 == 'n') && (c1 == 'U' || c1 == 'u') &&
             (c2 == 'L' || c2 == 'l')
       | _ => false))

/-- The segment texts `dot` and `dotdot` (path_windows.cc, lines 381-382). -/
def dotSeg : PathStr := ['.']

/-- The two-character dot-dot segment. -/
def dotdotSeg : PathStr := ['.', '.']

/-- One step of the segment-collection loop of `NormalizeWindowsPath`
(path_windows.cc, lines 394-407): a completed segment is dropped when it is
`.`; when it is `..` the vector's last element is popped, but only when the
vector is non-empty and its element `segments[0]` is not a drive
specifier; every other segment is appended. -/
def procSeg (segments : List PathStr) (segment : PathStr) : List PathStr :=
  if segment == dotdotSeg then
    if !segments.isEmpty && !HasDriveSpecifier (segments.headD []) then
      segments.dropLast
    else segments
  else if segment == dotSeg then segments
  else segments ++ [segment]

/-- The maximal runs of non-separator characters of a path, in order: the
segments discovered by the scanning loop of `NormalizeWindowsPath`
(path_windows.cc, lines 385-411), before `.`/`..` processing.  A leading
non-separator character extends the first segment of the tail's runs when
the tail starts inside the same run, and opens a fresh one-character
segment otherwise. -/
def rawSegs : PathStr → List PathStr
  | [] => []
  | c :: cs =>
    if IsPathSeparator c then rawSegs cs
    else
      match cs, rawSegs cs with
      | [], _ => [[c]]
      | c2 :: _, r =>
        if IsPathSeparator c2 then [c] :: r
        else
          match r with
          | [] => [[c]]
          | s :: r2 => (c :: s) :: r2

/-- The fully processed segment vector of `NormalizeWindowsPath`. -/
def collectSegs (p : PathStr) : List PathStr := (rawSegs p).foldl procSeg []

/-- Continuation of the join loop of `NormalizeWindowsPath` (path_windows.cc,
lines 420-429) after the first segment: each further segment is preceded by
one backslash. -/
def joinRest : List PathStr → PathStr
  | [] => []
  | s :: rest => '\\' :: (s ++ joinRest rest)

/-- The join loop of `NormalizeWindowsPath` (path_windows.cc, lines 420-429):
segments joined by single backslashes, no leading or trailing separator. -/
def joinSegs : List PathStr → PathStr
  | [] => []
  | s :: rest => s ++ joinRest rest

/-- The marker-stripping step of `NormalizeWindowsPath` (path_windows.cc,
lines 377-379): drop a leading 4-character long-path marker. -/
def stripMarker (path : PathStr) : PathStr :=
  if decide (4 ≤ path.length) && HasLongPathMarker path then path.drop 4 else path

/-- The condition of the degenerate drive-specifier case of
`NormalizeWindowsPath` (path_windows.cc, lines 413-418): exactly one
segment remains and it is a bare two-character drive specifier. -/
def isDriveSingleton (segments : List PathStr) : Bool :=
  segments.length == 1 && (segments.headD []).length == 2 &&
    HasDriveSpecifier (segments.headD [])

/-- Embeds `NormalizeWindowsPath` (path_windows.cc, lines 368-431).  `none` models
the fatal `BAZEL_DIE` termination on a leading forward slash; every other
input yields a value. -/
def NormalizeWindowsPath (path : PathStr) : Option PathStr :=
  if path.isEmpty then some []
  else if path.headD ' ' == '/' then none
  else if isDriveSingleton (collectSegs (stripMarker path)) then
    some ((collectSegs (stripMarker path)).headD [] ++ ['\\'])
  else
    some (joinSegs (collectSegs (stripMarker path)))

/-- The index of the rightmost separator of a path, if any: the value of
`pos` at which the reverse scan of `SplitPathImpl` (path_windows.cc, lines
153-177) finds its first separator. -/
def rfindSep : PathStr → Option Nat
  | [] => none
  | c :: cs =>
    match rfindSep cs with
    | some i => some (i + 1)
    | none => if IsPathSeparator c then some 0 else none

/-- Embeds `SplitPathImpl` (path_windows.cc, lines 145-181): split a path into
(parent, leaf) at the rightmost separator. -/
def SplitPathImpl (path : PathStr) : PathStr × PathStr :=
  match rfindSep path with
  | none => ([], path)
  | some pos =>
    if (pos == 2 || pos == 6) && IsRootOrAbsolute (path.take (pos + 1)) true then
      (path.take (pos + 1), path.drop (pos + 1))
    else
      (if pos == 0 then path.take 1 else path.take pos,
       if pos == path.length - 1 then [] else path.drop (pos + 1))

/-- Embeds `SplitPath` (path_windows.cc, lines 183-185). -/
def SplitPath (path : PathStr) : PathStr × PathStr := SplitPathImpl path

/-- Embeds `SplitPathW` (path_windows.cc, lines 187-189); identical in this embedding. -/
def SplitPathW (path : PathStr) : PathStr × PathStr := SplitPathImpl path

/-- Embeds `GetCurrentDrive` (path_windows.cc, lines 361-366), with the external
`GetCwdW` collaborator passed in as the parameter `cwd`.  Reading
`cwd.c_str()[0]` of an empty string yields the NUL terminator. -/
def GetCurrentDrive (cwd : PathStr) : Char :=
  let wdrive := (RemoveUncPrefixMaybe cwd).headD (Char.ofNat 0)
  let offset := if 'A' ≤ wdrive ∧ wdrive ≤ 'Z' then 'A' else 'a'
  Char.ofNat ('a'.toNat + wdrive.toNat - offset.toNat)

/-- Modelled from the spec: ASCII case folding of one character, the
per-character step of `blaze_util::ToLower` (strings.h, outside src/), a
pure total text transform per the spec's external-interface section. -/
def toLowerChar (c : Char) : Char :=
  if 'A' ≤ c ∧ c ≤ 'Z' then Char.ofNat (c.toNat + 32) else c

/-- Modelled from the spec: `blaze_util::ToLower` (strings.h, outside
src/), case-folding a whole string to lower case. -/
def ToLower (s : PathStr) : PathStr := s.map toLowerChar

/-- The error message of path_windows.cc line 210. -/
def networkErr : String := "network paths are unsupported"

/-- The error message of path_windows.cc line 218. -/
def driveRelativeErr : String := "working-directory relative paths are unsupported"

/-- The error message of path_windows.cc line 226. -/
def unixStyleErr : String := "Unix-style paths are unsupported"

/-- Embeds `AsWindowsPath` (path_windows.cc, lines 191-238), with the external
current working directory (used only through `GetCurrentDrive`) passed in
as `cwd`.  `some (Except.ok r)` models `return true` with `*result = r`;
`some (Except.error e)` models `return false` with `*error = e`; `none`
models a fatal process termination inside `NormalizeWindowsPath`. -/
def AsWindowsPath (cwd : PathStr) (path : PathStr) : Option (Except String PathStr) :=
  if path.isEmpty then some (Except.ok [])
  else if IsDevNull path then some (Except.ok ['N', 'U', 'L'])
  else if HasLongPathMarker path then some (Except.ok path)
  else if IsPathSeparator (path.headD ' ') && decide (1 < path.length) &&
      IsPathSeparator (path.getD 1 ' ') then
    some (Except.error networkErr)
  else if HasDriveSpecifier path &&
      (decide (path.length < 3) || !IsPathSeparator (path.getD 2 ' ')) then
    some (Except.error driveRelativeErr)
  else if path.headD ' ' == '/' then
    some (Except.error unixStyleErr)
  else
    let mutablePath := if path.headD ' ' == '\\'
      then GetCurrentDrive cwd :: ':' :: path else path
    (NormalizeWindowsPath mutablePath).map Except.ok

/-- Embeds `AsAbsoluteWindowsPath` (path_windows.cc, lines 251-271), with the
external `GetCwdW` collaborator passed in as `cwd`. -/
def AsAbsoluteWindowsPath (cwd : PathStr) (path : PathStr) :
    Option (Except String PathStr) :=
  if path.isEmpty then some (Except.ok [])
  else if IsDevNull path then some (Except.ok ['N', 'U', 'L'])
  else
    match AsWindowsPath cwd path with
    | none => none
    | some (Except.error e) => some (Except.error e)
    | some (Except.ok r0) =>
      let r1 := if !IsRootOrAbsolute r0 false then cwd ++ '\\' :: r0 else r0
      let r2 := if !HasLongPathMarker r1 then '\\' :: '\\' :: '?' :: '\\' :: r1 else r1
      some (Except.ok r2)

/-- The external collaborators of `AsShortWindowsPath`: the current working
directory and the `GetShortPathNameW` OS query.  `shortSize p` models
`GetShortPathNameW(p, nullptr, 0)` (0 means the query failed); `shortBuf p
n` models `GetShortPathNameW(p, buffer, n)` together with the text the call
writes into the buffer.  `probeFailIsNotFound` is modelled from the spec:
the collaborator contract distinguishes a NotFound failure from every other
failure (on Windows, via GetLastError); path_windows.cc never reads this
distinction for the size-probing query, so no field of the structure's
operational part depends on it. -/
structure OsEnv where
  cwd : PathStr
  shortSize : PathStr → Nat
  shortBuf : PathStr → Nat → Nat × PathStr
  probeFailIsNotFound : PathStr → Bool

/-- The walk-up loop of `AsShortWindowsPath` (path_windows.cc, lines
286-299): while the size probe fails and the current path is not a root,
split off the leaf, keep it, and retry on the parent.  Each iteration
strictly shortens the path (the C++ loop diverges on the degenerate empty
path, which `AsShortWindowsPath` never feeds it for a terminating input),
so a fuel of `length + 1` makes the recursion total without changing any
terminating behaviour.  The returned segment list is in original path
order, the order in which the C++ suffix builder (crbegin to crend)
consumes it. -/
def shortWalk (env : OsEnv) : Nat → PathStr → List PathStr →
    PathStr × List PathStr × Nat
  | 0, wpath, segs => (wpath, segs, env.shortSize wpath)
  | fuel + 1, wpath, segs =>
    let size := env.shortSize wpath
    if size == 0 && !IsRootDirectoryW wpath then
      shortWalk env fuel (SplitPathImpl wpath).1 ((SplitPathImpl wpath).2 :: segs)
    else (wpath, segs, size)

/-- The suffix builder of `AsShortWindowsPath` after its first iteration
(path_windows.cc, lines 301-311): every further kept segment is preceded by
one backslash. -/
def buildSuffixRest : List PathStr → PathStr
  | [] => []
  | s :: rest => '\\' :: (s ++ buildSuffixRest rest)

/-- The suffix builder of `AsShortWindowsPath` (path_windows.cc, lines
301-312): the first kept segment is preceded by a backslash unless the
surviving prefix is a root directory. -/
def buildSuffix (isRoot : Bool) : List PathStr → PathStr
  | [] => []
  | s :: rest => (if isRoot then s else '\\' :: s) ++ buildSuffixRest rest

/-- The error message of path_windows.cc lines 323-329, whose full C++ text
interpolates the inputs and `GetLastErrorString`; the claims under proof
never inspect this text, only that the branch is an error. -/
def shortPathErr : String := "AsShortWindowsPath: GetShortPathNameW failed"

/-- Embeds `AsShortWindowsPath` (path_windows.cc, lines 273-339). -/
def AsShortWindowsPath (env : OsEnv) (path : PathStr) :
    Option (Except String PathStr) :=
  if IsDevNull path then some (Except.ok ['N', 'U', 'L'])
  else
    match AsAbsoluteWindowsPath env.cwd path with
    | none => none
    | some (Except.error e) => some (Except.error e)
    | some (Except.ok wpath0) =>
      let w := shortWalk env (wpath0.length + 1) wpath0 []
      let wpath := w.1
      let wsuffix := buildSuffix (IsRootDirectoryW wpath) w.2.1
      if IsRootDirectoryW wpath then
        some (Except.ok (ToLower (RemoveUncPrefixMaybe wpath ++ wsuffix)))
      else
        let size := w.2.2
        let fill := env.shortBuf wpath size
        if decide (size - 1 ≠ fill.1) then some (Except.error shortPathErr)
        else some (Except.ok (ToLower (RemoveUncPrefixMaybe fill.2 ++ wsuffix)))

/-- Decidable equality for the embedded result type of the converters,
used to evaluate the development's concrete statements. -/
instance exceptDecEq : DecidableEq (Except String PathStr)
  | Except.ok a, Except.ok b =>
      if h : a = b then Decidable.isTrue (congrArg Except.ok h)
      else Decidable.isFalse (fun hx => h (Except.ok.inj hx))
  | Except.error a, Except.error b =>
      if h : a = b then Decidable.isTrue (congrArg Except.error h)
      else Decidable.isFalse (fun hx => h (Except.error.inj hx))
  | Except.ok _, Except.error _ => Decidable.isFalse (fun hx => Except.noConfusion hx)
  | Except.error _, Except.ok _ => Decidable.isFalse (fun hx => Except.noConfusion hx)

/-- The shape of every segment the collection loop of
`NormalizeWindowsPath` can leave in its vector: non-empty, free of
separators, and neither `.` nor `..`. -/
def CleanSeg (s : PathStr) : Prop :=
  s ≠ [] ∧ (∀ c ∈ s, IsPathSeparator c = false) ∧ s ≠ dotSeg ∧ s ≠ dotdotSeg

/-- A concrete environment for `AsShortWindowsPath`: the size probe fails
on the absolute form of `c:\foo\bar` — and the recorded failure reason is
not NotFound — while the probe on the parent succeeds with a 9-character
short form whose buffer content is `c:\FOO12`. -/
def probeEnvA : OsEnv :=
  OsEnv.mk ("c:\\w".data)
    (fun p => if p = "\\\\?\\c:\\foo".data then 9 else 0)
    (fun p n => if p = "\\\\?\\c:\\foo".data ∧ n = 9 then (8, "c:\\FOO12".data) else (0, []))
    (fun _ => false)

/-- A concrete environment for `AsShortWindowsPath` where the size probe
fails on the absolute form of `c:\a\b` but succeeds on its parent `c:\a`
with a 12-character short form. -/
def probeEnvB : OsEnv :=
  OsEnv.mk ("c:\\w".data)
    (fun p => if p = "\\\\?\\c:\\a".data then 12 else 0)
    (fun p n => if p = "\\\\?\\c:\\a".data ∧ n = 12 then (11, "\\\\?\\c:\\A160".data) else (0, []))
    (fun _ => true)

/-- A concrete environment for `AsShortWindowsPath` where the size probe
fails on the absolute form of `c:\g\x\y` and on its parent `c:\g\x`, and
succeeds only on the grandparent `c:\g` with a 7-character short form: the
walk must strip two segments before a probe succeeds. -/
def probeEnvC : OsEnv :=
  OsEnv.mk ("c:\\w".data)
    (fun p => if p = "\\\\?\\c:\\g".data then 8 else 0)
    (fun p n => if p = "\\\\?\\c:\\g".data ∧ n = 8 then (7, "c:\\G165".data) else (0, []))
    (fun _ => true)

/-- A concrete environment for `AsShortWindowsPath` whose size probe fails
on every path, for every reason: the walk must run all the way down to the
root directory and still return success. -/
def probeEnvFail : OsEnv :=
  OsEnv.mk ("c:\\w".data) (fun _ => 0) (fun _ _ => (0, [])) (fun _ => true)


/-! Basic facts about characters and lists used throughout. -/

theorem isPathSeparator_iff (c : Char) :
    IsPathSeparator c = true ↔ c = '/' ∨ c = '\\' := by
  simp [IsPathSeparator]

theorem isAlpha_not_sep {c : Char} (h : c.isAlpha = true) :
    IsPathSeparator c = false := by
  rcases Bool.eq_false_or_eq_true (IsPathSeparator c) with ht | hf
  · rcases (isPathSeparator_iff c).mp ht with rfl | rfl
    · exact absurd h (by decide)
    · exact absurd h (by decide)
  · exact hf

theorem mem_takeWhile_pred {α : Type} (p : α → Bool) :
    ∀ (l : List α) (a : α), a ∈ l.takeWhile p → p a = true := by
  intro l
  induction l with
  | nil => intro a h; simp [List.takeWhile] at h
  | cons x l ih =>
    intro a h
    by_cases hp : p x = true
    · rw [List.takeWhile_cons_of_pos hp] at h
      rcases List.mem_cons.mp h with rfl | h2
      · exact hp
      · exact ih a h2
    · rw [List.takeWhile_cons_of_neg hp] at h
      simp at h

theorem takeWhile_all {α : Type} (p : α → Bool) :
    ∀ (l : List α), (∀ a ∈ l, p a = true) → l.takeWhile p = l := by
  intro l
  induction l with
  | nil => intro _; rfl
  | cons x l ih =>
    intro h
    rw [List.takeWhile_cons_of_pos (h x (List.mem_cons_self x l))]
    rw [ih (fun a ha => h a (List.mem_cons_of_mem x ha))]

theorem dropWhile_all {α : Type} (p : α → Bool) :
    ∀ (l : List α), (∀ a ∈ l, p a = true) → l.dropWhile p = [] := by
  intro l
  induction l with
  | nil => intro _; rfl
  | cons x l ih =>
    intro h
    rw [List.dropWhile_cons_of_pos (h x (List.mem_cons_self x l))]
    exact ih (fun a ha => h a (List.mem_cons_of_mem x ha))

theorem takeWhile_append_hit {α : Type} (p : α → Bool) {x : α} (hx : p x = false) :
    ∀ (l t : List α), (∀ a ∈ l, p a = true) → (l ++ x :: t).takeWhile p = l := by
  intro l
  induction l with
  | nil =>
    intro t _
    simpa using List.takeWhile_cons_of_neg (l := t) (by simp [hx])
  | cons y l ih =>
    intro t h
    rw [List.cons_append, List.takeWhile_cons_of_pos (h y (List.mem_cons_self y l))]
    rw [ih t (fun a ha => h a (List.mem_cons_of_mem y ha))]

theorem dropWhile_append_hit {α : Type} (p : α → Bool) {x : α} (hx : p x = false) :
    ∀ (l t : List α), (∀ a ∈ l, p a = true) → (l ++ x :: t).dropWhile p = x :: t := by
  intro l
  induction l with
  | nil =>
    intro t _
    simpa using List.dropWhile_cons_of_neg (l := t) (by simp [hx])
  | cons y l ih =>
    intro t h
    rw [List.cons_append, List.dropWhile_cons_of_pos (h y (List.mem_cons_self y l))]
    exact ih t (fun a ha => h a (List.mem_cons_of_mem y ha))

theorem getLast?_mem {α : Type} :
    ∀ (l : List α) (a : α), l.getLast? = some a → a ∈ l := by
  intro l
  induction l with
  | nil => intro a h; simp [List.getLast?] at h
  | cons x l ih =>
    intro a h
    cases l with
    | nil =>
      simp [List.getLast?] at h
      simp [h]
    | cons y t =>
      rw [List.getLast?_cons_cons] at h
      exact List.mem_cons_of_mem x (ih a h)

theorem getLast?_append_right {α : Type} {b : List α} (h : b ≠ []) :
    ∀ (a : List α), (a ++ b).getLast? = b.getLast? := by
  intro a
  induction a with
  | nil => rfl
  | cons x a ih =>
    rw [List.cons_append]
    cases hb : a ++ b with
    | nil => exact absurd (List.append_eq_nil.mp hb).2 h
    | cons y t =>
      rw [List.getLast?_cons_cons, ← hb]
      exact ih

theorem mem_dropLast {α : Type} :
    ∀ (l : List α) (a : α), a ∈ l.dropLast → a ∈ l := by
  intro l
  induction l with
  | nil => intro a h; simp at h
  | cons x l ih =>
    intro a h
    cases l with
    | nil => simp [List.dropLast] at h
    | cons y t =>
      rw [show (x :: y :: t).dropLast = x :: (y :: t).dropLast from rfl] at h
      rcases List.mem_cons.mp h with rfl | h2
      · exact List.mem_cons_self _ _
      · exact List.mem_cons_of_mem _ (ih a h2)

/-! Facts about the raw segmentation of `NormalizeWindowsPath`. -/

theorem dropWhile_length_le {α : Type} (p : α → Bool) (l : List α) :
    (l.dropWhile p).length ≤ l.length := by
  induction l with
  | nil => simp [List.dropWhile]
  | cons a l ih =>
    by_cases h : p a = true
    · rw [List.dropWhile_cons_of_pos h]; exact Nat.le_trans ih (Nat.le_succ _)
    · rw [List.dropWhile_cons_of_neg (by simp [h])]

theorem rawSegs_nil : rawSegs [] = [] := rfl

theorem rawSegs_cons_sep {c : Char} (h : IsPathSeparator c = true) (cs : PathStr) :
    rawSegs (c :: cs) = rawSegs cs := by
  simp [rawSegs, h]

theorem rawSegs_cons_nonsep :
    ∀ (cs : PathStr) {c : Char}, IsPathSeparator c = false →
      rawSegs (c :: cs) =
        (c :: cs.takeWhile (fun x => !IsPathSeparator x)) ::
          rawSegs (cs.dropWhile (fun x => !IsPathSeparator x)) := by
  intro cs
  induction cs with
  | nil =>
    intro c h
    simp [rawSegs, h, List.takeWhile, List.dropWhile]
  | cons c2 t ih =>
    intro c h
    by_cases h2 : IsPathSeparator c2 = true
    · rw [List.takeWhile_cons_of_neg (by simp [h2]),
        List.dropWhile_cons_of_neg (by simp [h2])]
      simp [rawSegs, h, h2]
    · have h2f : IsPathSeparator c2 = false := by simpa using h2
      rw [List.takeWhile_cons_of_pos (by simp [h2f]),
        List.dropWhile_cons_of_pos (by simp [h2f])]
      have ihe := ih h2f
      conv_lhs => rw [rawSegs]
      simp [h, h2f, ihe]

theorem rawSegs_sound_aux :
    ∀ (n : Nat) (p : PathStr), p.length ≤ n → ∀ s ∈ rawSegs p,
      s ≠ [] ∧ ∀ c ∈ s, IsPathSeparator c = false := by
  intro n
  induction n with
  | zero =>
    intro p hp s hs
    rw [List.length_eq_zero.mp (Nat.le_zero.mp hp)] at hs
    rw [rawSegs_nil] at hs
    simp at hs
  | succ n ih =>
    intro p hp s hs
    cases p with
    | nil => rw [rawSegs_nil] at hs; simp at hs
    | cons c cs =>
      have hcs : cs.length ≤ n := by
        simp only [List.length_cons] at hp; omega
      by_cases hc : IsPathSeparator c = true
      · rw [rawSegs_cons_sep hc cs] at hs
        exact ih cs hcs s hs
      · have hcf : IsPathSeparator c = false := by simpa using hc
        rw [rawSegs_cons_nonsep cs hcf] at hs
        rcases List.mem_cons.mp hs with rfl | h2
        · refine ⟨by simp, ?_⟩
          intro x hx
          rcases List.mem_cons.mp hx with rfl | h3
          · exact hcf
          · have := mem_takeWhile_pred _ _ _ h3
            simpa using this
        · have hd : (cs.dropWhile (fun x => !IsPathSeparator x)).length ≤ n :=
            Nat.le_trans (dropWhile_length_le _ cs) hcs
          exact ih _ hd s h2

theorem rawSegs_sound (p : PathStr) :
    ∀ s ∈ rawSegs p, s ≠ [] ∧ ∀ c ∈ s, IsPathSeparator c = false :=
  rawSegs_sound_aux p.length p (Nat.le_refl _)

theorem rawSegs_single {s : PathStr} (hne : s ≠ [])
    (hs : ∀ c ∈ s, IsPathSeparator c = false) : rawSegs s = [s] := by
  cases s with
  | nil => exact absurd rfl hne
  | cons c s2 =>
    have hc : IsPathSeparator c = false := hs c (List.mem_cons_self c s2)
    rw [rawSegs_cons_nonsep s2 hc]
    have hall : ∀ a ∈ s2, (fun x => !IsPathSeparator x) a = true := by
      intro a ha
      simp [hs a (List.mem_cons_of_mem c ha)]
    rw [takeWhile_all _ s2 hall, dropWhile_all _ s2 hall, rawSegs_nil]

theorem rawSegs_append_sep {s : PathStr} (t : PathStr) (hne : s ≠ [])
    (hs : ∀ c ∈ s, IsPathSeparator c = false) :
    rawSegs (s ++ '\\' :: t) = s :: rawSegs t := by
  cases s with
  | nil => exact absurd rfl hne
  | cons c s2 =>
    have hc : IsPathSeparator c = false := hs c (List.mem_cons_self c s2)
    rw [List.cons_append, rawSegs_cons_nonsep (s2 ++ '\\' :: t) hc]
    have hall : ∀ a ∈ s2, (fun x => !IsPathSeparator x) a = true := by
      intro a ha
      simp [hs a (List.mem_cons_of_mem c ha)]
    have hx : (fun x => !IsPathSeparator x) '\\' = false := by decide
    rw [takeWhile_append_hit (fun x => !IsPathSeparator x) hx s2 t hall]
    rw [dropWhile_append_hit (fun x => !IsPathSeparator x) hx s2 t hall]
    rw [rawSegs_cons_sep (by decide) t]

/-! Facts about the joined output of `NormalizeWindowsPath`. -/

theorem joinSegs_resegment :
    ∀ (segs : List PathStr),
      (∀ s ∈ segs, s ≠ [] ∧ ∀ c ∈ s, IsPathSeparator c = false) →
      rawSegs (joinSegs segs) = segs := by
  intro segs
  induction segs with
  | nil => intro _; exact rawSegs_nil
  | cons s rest ih =>
    intro h
    have hs := h s (List.mem_cons_self s rest)
    cases rest with
    | nil =>
      show rawSegs (s ++ joinRest []) = [s]
      rw [show joinRest [] = ([] : PathStr) from rfl, List.append_nil]
      exact rawSegs_single hs.1 hs.2
    | cons t rest2 =>
      show rawSegs (s ++ joinRest (t :: rest2)) = s :: t :: rest2
      rw [show joinRest (t :: rest2) = '\\' :: joinSegs (t :: rest2) from rfl]
      rw [rawSegs_append_sep _ hs.1 hs.2]
      rw [ih (fun x hx => h x (List.mem_cons_of_mem s hx))]

theorem joinSegs_no_char {ch : Char} (hch : IsPathSeparator ch = true)
    (hne : (ch == '\\') = false) :
    ∀ (segs : List PathStr),
      (∀ s ∈ segs, ∀ c ∈ s, IsPathSeparator c = false) → ch ∉ joinSegs segs := by
  have hrest : ∀ (segs : List PathStr),
      (∀ s ∈ segs, ∀ c ∈ s, IsPathSeparator c = false) → ch ∉ joinRest segs := by
    intro segs
    induction segs with
    | nil => intro _ h; simp [joinRest] at h
    | cons s rest ih =>
      intro h hmem
      rw [show joinRest (s :: rest) = '\\' :: (s ++ joinRest rest) from rfl] at hmem
      rcases List.mem_cons.mp hmem with rfl | h2
      · simp at hne
      · rcases List.mem_append.mp h2 with h3 | h4
        · have := h s (List.mem_cons_self s rest) ch h3
          rw [this] at hch; exact Bool.false_ne_true hch
        · exact ih (fun x hx => h x (List.mem_cons_of_mem s hx)) h4
  intro segs
  cases segs with
  | nil => intro _ h; simp [joinSegs] at h
  | cons s rest =>
    intro h hmem
    rw [show joinSegs (s :: rest) = s ++ joinRest rest from rfl] at hmem
    rcases List.mem_append.mp hmem with h3 | h4
    · have := h s (List.mem_cons_self s rest) ch h3
      rw [this] at hch; exact Bool.false_ne_true hch
    · exact hrest rest (fun x hx => h x (List.mem_cons_of_mem s hx)) h4

theorem joinSegs_last_not_sep :
    ∀ (segs : List PathStr),
      (∀ s ∈ segs, s ≠ [] ∧ ∀ c ∈ s, IsPathSeparator c = false) →
      ∀ c, (joinSegs segs).getLast? = some c → IsPathSeparator c = false := by
  intro segs
  induction segs with
  | nil => intro _ c h; simp [joinSegs, List.getLast?] at h
  | cons s rest ih =>
    intro h c hc
    have hs := h s (List.mem_cons_self s rest)
    cases rest with
    | nil =>
      rw [show joinSegs [s] = s ++ joinRest [] from rfl,
        show joinRest [] = ([] : PathStr) from rfl, List.append_nil] at hc
      exact hs.2 c (getLast?_mem s c hc)
    | cons t rest2 =>
      rw [show joinSegs (s :: t :: rest2) = s ++ joinRest (t :: rest2) from rfl] at hc
      have hjr : joinRest (t :: rest2) ≠ [] := by
        rw [show joinRest (t :: rest2) = '\\' :: (t ++ joinRest rest2) from rfl]
        simp
      rw [getLast?_append_right hjr s] at hc
      rw [show joinRest (t :: rest2) = '\\' :: joinSegs (t :: rest2) from rfl] at hc
      have hts := h t (List.mem_cons_of_mem s (List.mem_cons_self t rest2))
      have hjne : joinSegs (t :: rest2) ≠ [] := by
        rw [show joinSegs (t :: rest2) = t ++ joinRest rest2 from rfl]
        intro hx
        exact hts.1 (List.append_eq_nil.mp hx).1
      cases hj : joinSegs (t :: rest2) with
      | nil => exact absurd hj hjne
      | cons y u =>
        rw [hj, List.getLast?_cons_cons] at hc
        rw [← hj] at hc
        exact ih (fun x hx => h x (List.mem_cons_of_mem s hx)) c hc

/-! The invariant of the `.`/`..` collection loop. -/

theorem procSeg_clean_inv {acc : List PathStr} {s : PathStr}
    (hacc : ∀ x ∈ acc, CleanSeg x)
    (hs : s ≠ [] ∧ ∀ c ∈ s, IsPathSeparator c = false) :
    ∀ x ∈ procSeg acc s, CleanSeg x := by
  intro x hx
  unfold procSeg at hx
  by_cases hdd : (s == dotdotSeg) = true
  · rw [if_pos hdd] at hx
    by_cases hguard : (!acc.isEmpty && !HasDriveSpecifier (acc.headD [])) = true
    · rw [if_pos hguard] at hx
      exact hacc x (mem_dropLast acc x hx)
    · rw [if_neg hguard] at hx
      exact hacc x hx
  · rw [if_neg hdd] at hx
    by_cases hd : (s == dotSeg) = true
    · rw [if_pos hd] at hx
      exact hacc x hx
    · rw [if_neg hd] at hx
      rcases List.mem_append.mp hx with h1 | h2
      · exact hacc x h1
      · rw [List.mem_singleton.mp h2]
        exact ⟨hs.1, hs.2, by simpa using hd, by simpa using hdd⟩

theorem foldl_procSeg_inv :
    ∀ (segs : List PathStr) (acc : List PathStr),
      (∀ s ∈ segs, s ≠ [] ∧ ∀ c ∈ s, IsPathSeparator c = false) →
      (∀ x ∈ acc, CleanSeg x) →
      ∀ x ∈ segs.foldl procSeg acc, CleanSeg x := by
  intro segs
  induction segs with
  | nil =>
    intro acc _ hacc x hx
    rw [List.foldl_nil] at hx
    exact hacc x hx
  | cons s rest ih =>
    intro acc h hacc x hx
    rw [List.foldl_cons] at hx
    exact ih (procSeg acc s)
      (fun y hy => h y (List.mem_cons_of_mem s hy))
      (procSeg_clean_inv hacc (h s (List.mem_cons_self s rest))) x hx

theorem collectSegs_clean (p : PathStr) : ∀ x ∈ collectSegs p, CleanSeg x :=
  foldl_procSeg_inv (rawSegs p) [] (rawSegs_sound p) (by simp)

theorem foldl_procSeg_app :
    ∀ (segs : List PathStr) (acc : List PathStr),
      (∀ s ∈ segs, s ≠ dotSeg ∧ s ≠ dotdotSeg) →
      segs.foldl procSeg acc = acc ++ segs := by
  intro segs
  induction segs with
  | nil => intro acc _; simp
  | cons s rest ih =>
    intro acc h
    rw [List.foldl_cons]
    have hs := h s (List.mem_cons_self s rest)
    have hstep : procSeg acc s = acc ++ [s] := by
      unfold procSeg
      rw [if_neg (by simpa using hs.2), if_neg (by simpa using hs.1)]
    rw [hstep, ih (acc ++ [s]) (fun y hy => h y (List.mem_cons_of_mem s hy))]
    simp

/-! Characterization of the normalizer's possible outputs. -/

theorem marker_false_of_head {c : Char} (h : (c == '\\') = false) (t : PathStr) :
    HasLongPathMarker (c :: t) = false := by
  cases t with
  | nil => rfl
  | cons b t2 =>
    cases t2 with
    | nil => rfl
    | cons c2 t3 =>
      cases t3 with
      | nil => rfl
      | cons d t4 => simp [HasLongPathMarker, h]

theorem normalize_some {p r : PathStr} (h : NormalizeWindowsPath p = some r) :
    r = [] ∨ (∃ d, d.isAlpha = true ∧ r = [d, ':', '\\']) ∨
      (∃ segs, segs ≠ [] ∧ (∀ s ∈ segs, CleanSeg s) ∧
        isDriveSingleton segs = false ∧ r = joinSegs segs) := by
  unfold NormalizeWindowsPath at h
  by_cases h0 : p.isEmpty = true
  · rw [if_pos h0] at h
    exact Or.inl (Option.some.inj h).symm
  · rw [if_neg h0] at h
    by_cases h1 : (p.headD ' ' == '/') = true
    · rw [if_pos h1] at h
      exact absurd h (by simp)
    · rw [if_neg h1] at h
      by_cases hds : isDriveSingleton (collectSegs (stripMarker p)) = true
      · rw [if_pos hds] at h
        unfold isDriveSingleton at hds
        rcases Bool.and_eq_true .. |>.mp hds with ⟨hds1, hds3⟩
        rcases Bool.and_eq_true .. |>.mp hds1 with ⟨hlen1, hlen2⟩
        obtain ⟨s0, hs0⟩ := List.length_eq_one.mp (by simpa using hlen1)
        rw [hs0] at hlen2 hds3 h
        simp only [List.headD] at hlen2 hds3 h
        cases s0 with
        | nil => simp at hlen2
        | cons a s1 =>
          cases s1 with
          | nil => simp at hlen2
          | cons b s2 =>
            cases s2 with
            | nil =>
              unfold HasDriveSpecifier at hds3
              rcases Bool.and_eq_true .. |>.mp hds3 with ⟨ha, hb⟩
              right; left
              refine ⟨a, ha, ?_⟩
              rw [← Option.some.inj h, (beq_iff_eq ..).mp hb]
              rfl
            | cons e s3 => simp at hlen2
      · rw [if_neg hds] at h
        cases hseg : collectSegs (stripMarker p) with
        | nil =>
          rw [hseg] at h
          exact Or.inl (Option.some.inj h).symm
        | cons s rest =>
          right; right
          refine ⟨collectSegs (stripMarker p), by rw [hseg]; simp,
            collectSegs_clean (stripMarker p), by simpa using hds,
            (Option.some.inj h).symm⟩

theorem joinSegs_head_nonsep {segs : List PathStr} (hne : segs ≠ [])
    (hclean : ∀ s ∈ segs, CleanSeg s) :
    ∃ c t, joinSegs segs = c :: t ∧ IsPathSeparator c = false := by
  cases segs with
  | nil => exact absurd rfl hne
  | cons s rest =>
    have hs := hclean s (List.mem_cons_self s rest)
    cases s with
    | nil => exact absurd rfl hs.1
    | cons c s2 =>
      exact ⟨c, s2 ++ joinRest rest, by simp [joinSegs], hs.2.1 c (List.mem_cons_self c s2)⟩

theorem normalize_fix {p r : PathStr} (h : NormalizeWindowsPath p = some r) :
    NormalizeWindowsPath r = some r := by
  rcases normalize_some h with rfl | ⟨d, hd, rfl⟩ | ⟨segs, hne, hclean, hds, rfl⟩
  · rfl
  · have hdsep : IsPathSeparator d = false := isAlpha_not_sep hd
    have hd2 : (d == '/') = false := by
      simp only [IsPathSeparator, Bool.or_eq_false_iff] at hdsep
      exact hdsep.1
    have hd3 : (d == '\\') = false := by
      simp only [IsPathSeparator, Bool.or_eq_false_iff] at hdsep
      exact hdsep.2
    unfold NormalizeWindowsPath
    rw [if_neg (by simp)]
    rw [if_neg (by simp only [List.headD]; simp [hd2])]
    have hsm : stripMarker [d, ':', '\\'] = [d, ':', '\\'] := by
      unfold stripMarker
      rw [if_neg (by simp)]
    rw [hsm]
    have hraw : rawSegs [d, ':', '\\'] = [[d, ':']] := by
      rw [show ([d, ':', '\\'] : PathStr) = [d, ':'] ++ '\\' :: [] from rfl]
      rw [rawSegs_append_sep [] (by simp) ?hsf, rawSegs_nil]
      case hsf =>
        intro c hc
        rcases List.mem_cons.mp hc with rfl | hc2
        · exact hdsep
        · rcases List.mem_singleton.mp hc2 with rfl
          decide
    have hne2 : ¬([d, ':'] : PathStr) = dotdotSeg := by
      intro hx
      rw [show dotdotSeg = ['.', '.'] from rfl] at hx
      exact absurd ((List.cons.injEq ..).mp hx).2 (by decide)
    have hne1 : ¬([d, ':'] : PathStr) = dotSeg := by
      intro hx
      rw [show dotSeg = ['.'] from rfl] at hx
      exact absurd ((List.cons.injEq ..).mp hx).2 (by decide)
    have hcol : collectSegs [d, ':', '\\'] = [[d, ':']] := by
      unfold collectSegs
      rw [hraw, List.foldl_cons, List.foldl_nil]
      unfold procSeg
      rw [if_neg (by simpa using hne2), if_neg (by simpa using hne1)]
      simp
    rw [hcol]
    rw [if_pos (by unfold isDriveSingleton HasDriveSpecifier; simp [hd])]
    rfl
  · obtain ⟨c, t, hj, hcsep⟩ := joinSegs_head_nonsep hne hclean
    have hc2 : (c == '/') = false := by
      simp only [IsPathSeparator, Bool.or_eq_false_iff] at hcsep
      exact hcsep.1
    have hc3 : (c == '\\') = false := by
      simp only [IsPathSeparator, Bool.or_eq_false_iff] at hcsep
      exact hcsep.2
    unfold NormalizeWindowsPath
    rw [if_neg (by rw [hj]; simp)]
    rw [if_neg (by rw [hj]; simp only [List.headD]; simp [hc2])]
    have hsm : stripMarker (joinSegs segs) = joinSegs segs := by
      unfold stripMarker
      rw [hj, marker_false_of_head hc3 t]
      simp
    rw [hsm]
    have hcol : collectSegs (joinSegs segs) = segs := by
      unfold collectSegs
      rw [joinSegs_resegment segs (fun s hs =>
        ⟨(hclean s hs).1, (hclean s hs).2.1⟩)]
      rw [foldl_procSeg_app segs [] (fun s hs =>
        ⟨(hclean s hs).2.2.1, (hclean s hs).2.2.2⟩)]
      simp
    rw [hcol, if_neg (by simp [hds])]

theorem normalize_total {p : PathStr} (h : (p.headD ' ' == '/') = false) :
    ∃ r, NormalizeWindowsPath p = some r := by
  unfold NormalizeWindowsPath
  by_cases h0 : p.isEmpty = true
  · rw [if_pos h0]; exact ⟨[], rfl⟩
  · rw [if_neg h0, if_neg (by rw [h]; simp : ¬(p.headD ' ' == '/') = true)]
    by_cases hds : isDriveSingleton (collectSegs (stripMarker p)) = true
    · rw [if_pos hds]; exact ⟨_, rfl⟩
    · rw [if_neg hds]; exact ⟨_, rfl⟩

/-! Claim C1. -/

/-- C1: the claim states that `..` pops the preceding real segment (unless
none exists or it is the drive specifier), so that normalizing
`c:\a\.\b\..\c` gives `c:\a\c`.  The code disagrees: its pop guard tests
`segments[0]` — the drive specifier at the front of the vector — instead of
the vector's last element, so in any drive-rooted path `..` never pops
anything.  At the claim's own input the code returns `c:\a\b\c`. -/
theorem c1_normalize_dotdot_eval :
    NormalizeWindowsPath ("c:\\a\\.\\b\\..\\c".data) = some ("c:\\a\\b\\c".data) ∧
    ("c:\\a\\b\\c".data : PathStr) ≠ "c:\\a\\c".data := by
  exact ⟨by decide, by decide⟩

/-! Claim C9. -/

/-- C9: the function `NormalizeWindowsPath` invoked on non-empty text beginning with a
plain forward slash is a fatal contract violation: the function terminates
the process (modelled by `none`) rather than returning any value or
recoverable error. -/
theorem c9_normalize_foreign_fatal (p : PathStr) (hne : p ≠ [])
    (hh : p.headD ' ' = '/') : NormalizeWindowsPath p = none := by
  unfold NormalizeWindowsPath
  rw [if_neg (by simp [hne]), if_pos (by simp only [hh]; decide)]

/-- C9 witness: the concrete input `/a` is fatal. -/
theorem c9_normalize_foreign_fatal_witness :
    NormalizeWindowsPath ("/a".data) = none :=
  c9_normalize_foreign_fatal ("/a".data) (by decide) (by decide)

/-! Claim C4. -/

theorem procSeg_driveSeg (d : Char) : procSeg [] [d, ':'] = [[d, ':']] := by
  unfold procSeg
  have hne2 : ¬([d, ':'] : PathStr) = dotdotSeg := by
    intro hx
    rw [show dotdotSeg = ['.', '.'] from rfl] at hx
    exact absurd ((List.cons.injEq ..).mp hx).2 (by decide)
  have hne1 : ¬([d, ':'] : PathStr) = dotSeg := by
    intro hx
    rw [show dotSeg = ['.'] from rfl] at hx
    exact absurd ((List.cons.injEq ..).mp hx).2 (by decide)
  rw [if_neg (by simpa using hne2), if_neg (by simpa using hne1)]
  simp

theorem procSeg_dotdot_drive {d : Char} (hd : d.isAlpha = true) :
    procSeg [[d, ':']] dotdotSeg = [[d, ':']] := by
  unfold procSeg
  rw [if_pos (by simp)]
  rw [if_neg (by simp [HasDriveSpecifier, hd])]

theorem foldl_procSeg_dotdot_drive {d : Char} (hd : d.isAlpha = true) :
    ∀ n : Nat, (List.replicate n dotdotSeg).foldl procSeg [[d, ':']] = [[d, ':']] := by
  intro n
  induction n with
  | zero => rfl
  | succ n ih =>
    rw [List.replicate_succ, List.foldl_cons, procSeg_dotdot_drive hd, ih]

theorem rawSegs_dotdot_repeat :
    ∀ n : Nat, rawSegs ((List.replicate n ['.', '.', '\\']).flatten) = List.replicate n dotdotSeg := by
  intro n
  induction n with
  | zero => rfl
  | succ n ih =>
    rw [List.replicate_succ, List.flatten_cons]
    rw [show (['.', '.', '\\'] : PathStr) ++ (List.replicate n ['.', '.', '\\']).flatten =
      ['.', '.'] ++ '\\' :: (List.replicate n ['.', '.', '\\']).flatten from rfl]
    rw [rawSegs_append_sep _ (by simp) (by decide)]
    rw [ih, List.replicate_succ]
    rfl

theorem rawSegs_driveRoot {d : Char} (hdsep : IsPathSeparator d = false) (t : PathStr) :
    rawSegs (d :: ':' :: '\\' :: t) = [d, ':'] :: rawSegs t := by
  rw [show (d :: ':' :: '\\' :: t : PathStr) = [d, ':'] ++ '\\' :: t from rfl]
  refine rawSegs_append_sep t (by simp) ?_
  intro c hc
  rcases List.mem_cons.mp hc with rfl | hc2
  · exact hdsep
  · rw [List.mem_singleton.mp hc2]; decide

/-- C4: for every alphabetic drive letter `d` and every count `n` of
trailing `..` segments appended to the drive root, normalization of `d:\`
followed by `n` copies of `..\` yields exactly `d:\`; and the concrete
scenario `NormalizeWindowsPath "c:\..\..\x" = "c:\x"` holds. -/
theorem c4_root_absorption (d : Char) (n : Nat) (hd : d.isAlpha = true) :
    NormalizeWindowsPath (d :: ':' :: '\\' :: (List.replicate n ['.', '.', '\\']).flatten) =
      some [d, ':', '\\'] ∧
    NormalizeWindowsPath ("c:\\..\\..\\x".data) = some ("c:\\x".data) := by
  refine ⟨?_, by decide⟩
  have hdsep : IsPathSeparator d = false := isAlpha_not_sep hd
  have hd2 : (d == '/') = false := by
    simp only [IsPathSeparator, Bool.or_eq_false_iff] at hdsep
    exact hdsep.1
  have hd3 : (d == '\\') = false := by
    simp only [IsPathSeparator, Bool.or_eq_false_iff] at hdsep
    exact hdsep.2
  unfold NormalizeWindowsPath
  rw [if_neg (by simp), if_neg (by simp only [List.headD]; simp [hd2])]
  have hdsepf : IsPathSeparator d = false := isAlpha_not_sep hd
  have hsm : stripMarker (d :: ':' :: '\\' :: (List.replicate n ['.', '.', '\\']).flatten) =
      d :: ':' :: '\\' :: (List.replicate n ['.', '.', '\\']).flatten := by
    unfold stripMarker
    rw [marker_false_of_head hd3]
    simp
  rw [hsm]
  have hcol : collectSegs (d :: ':' :: '\\' :: (List.replicate n ['.', '.', '\\']).flatten) =
      [[d, ':']] := by
    unfold collectSegs
    rw [rawSegs_driveRoot hdsepf, rawSegs_dotdot_repeat n, List.foldl_cons,
      procSeg_driveSeg d, foldl_procSeg_dotdot_drive hd n]
  rw [hcol]
  rw [if_pos (by simp [isDriveSingleton, HasDriveSpecifier, hd])]
  rfl

/-- C4 witness: the statement at `d` the letter c and `n` two. -/
theorem c4_root_absorption_witness :
    NormalizeWindowsPath ('c' :: ':' :: '\\' :: (List.replicate 2 ['.', '.', '\\']).flatten) =
      some ['c', ':', '\\'] :=
  (c4_root_absorption 'c' 2 (by decide)).1

/-! Claim C8. -/

/-- C8: for every input on which `NormalizeWindowsPath` returns a value
(those not beginning with a forward slash), the result contains no forward
slash, no `.` or `..` segments, and — except when it is exactly a
single-segment drive root `d:\` — its last character is not a separator. -/
theorem c8_normalize_invariants (p r : PathStr)
    (h : NormalizeWindowsPath p = some r) :
    '/' ∉ r ∧
    (∀ s ∈ rawSegs r, s ≠ dotSeg ∧ s ≠ dotdotSeg) ∧
    ((∃ d, d.isAlpha = true ∧ r = [d, ':', '\\']) ∨
      ∀ c, r.getLast? = some c → IsPathSeparator c = false) := by
  rcases normalize_some h with rfl | ⟨d, hd, rfl⟩ | ⟨segs, hne, hclean, hds, rfl⟩
  · exact ⟨by simp, by rw [rawSegs_nil]; simp, Or.inr (by simp [List.getLast?])⟩
  · have hdsep : IsPathSeparator d = false := isAlpha_not_sep hd
    refine ⟨?_, ?_, Or.inl ⟨d, hd, rfl⟩⟩
    · intro hmem
      rcases List.mem_cons.mp hmem with h1 | h2
      · rw [← h1] at hdsep
        exact absurd hdsep (by decide)
      · exact absurd h2 (by decide)
    · rw [rawSegs_driveRoot hdsep [], rawSegs_nil]
      intro s hs
      rw [List.mem_singleton.mp hs]
      constructor
      · intro hx
        rw [show dotSeg = ['.'] from rfl] at hx
        exact absurd ((List.cons.injEq ..).mp hx).2 (by decide)
      · intro hx
        rw [show dotdotSeg = ['.', '.'] from rfl] at hx
        exact absurd ((List.cons.injEq ..).mp hx).2 (by decide)
  · refine ⟨?_, ?_, Or.inr ?_⟩
    · exact joinSegs_no_char (by decide) (by decide) segs
        (fun s hs => (hclean s hs).2.1)
    · rw [joinSegs_resegment segs (fun s hs => ⟨(hclean s hs).1, (hclean s hs).2.1⟩)]
      exact fun s hs => ⟨(hclean s hs).2.2.1, (hclean s hs).2.2.2⟩
    · exact joinSegs_last_not_sep segs
        (fun s hs => ⟨(hclean s hs).1, (hclean s hs).2.1⟩)

/-- C8 witness: the no-forward-slash invariant at the concrete input `a/b`,
whose normalization is the two characters a backslash b. -/
theorem c8_normalize_invariants_witness : '/' ∉ ("a\\b".data : PathStr) :=
  (c8_normalize_invariants ("a/b".data) ("a\\b".data) (by decide)).1

/-! Claim C5. -/

theorem rfindSep_none_iff :
    ∀ p : PathStr, rfindSep p = none ↔ ∀ c ∈ p, IsPathSeparator c = false := by
  intro p
  induction p with
  | nil => simp [rfindSep]
  | cons c cs ih =>
    constructor
    · intro h
      unfold rfindSep at h
      cases hcs : rfindSep cs with
      | some i => rw [hcs] at h; simp at h
      | none =>
        rw [hcs] at h
        by_cases hc : IsPathSeparator c = true
        · rw [if_pos hc] at h; exact absurd h (by simp)
        · intro x hx
          rcases List.mem_cons.mp hx with rfl | h2
          · simpa using hc
          · exact (ih.mp hcs) x h2
    · intro h
      unfold rfindSep
      rw [ih.mpr (fun x hx => h x (List.mem_cons_of_mem c hx))]
      rw [if_neg (by simp [h c (List.mem_cons_self c cs)])]

theorem splitPathImpl_of_rfind {p : PathStr} {pos : Nat} (h : rfindSep p = some pos) :
    SplitPathImpl p =
      if ((pos == 2 || pos == 6) && IsRootOrAbsolute (p.take (pos + 1)) true) = true then
        (p.take (pos + 1), p.drop (pos + 1))
      else
        ((if (pos == 0) = true then p.take 1 else p.take pos),
         (if (pos == p.length - 1) = true then [] else p.drop (pos + 1))) := by
  unfold SplitPathImpl
  rw [h]

theorem rfindSep_rightmost {ps : Char} (hps : IsPathSeparator ps = true) :
    ∀ (l t : PathStr), (∀ c ∈ t, IsPathSeparator c = false) →
      rfindSep (l ++ ps :: t) = some l.length := by
  intro l
  induction l with
  | nil =>
    intro t ht
    rw [List.nil_append]
    unfold rfindSep
    rw [rfindSep_none_iff t |>.mpr ht, if_pos hps]
    rfl
  | cons c l ih =>
    intro t ht
    rw [List.cons_append]
    unfold rfindSep
    rw [ih t ht]
    simp

/-- C5: the function `SplitPathImpl` returns two empties on empty input; with no
separator it returns an empty parent and the whole path as leaf; with the
rightmost separator at offset `pos` (the length of the text left of it) it
keeps the separator on the parent exactly when `pos` is 2 or 6 and the
prefix including the separator is a root, and otherwise splits into the
text before the separator (a single separator when `pos` is 0) and the text
after it (empty when the separator is last); and the two concrete scenarios
hold. -/
theorem c5_splitpath_spec :
    SplitPathImpl [] = ([], []) ∧
    (∀ p : PathStr, (∀ c ∈ p, IsPathSeparator c = false) → SplitPathImpl p = ([], p)) ∧
    (∀ (l t : PathStr) (ps : Char), IsPathSeparator ps = true →
      (∀ c ∈ t, IsPathSeparator c = false) →
      SplitPathImpl (l ++ ps :: t) =
        (if (l.length = 2 ∨ l.length = 6) ∧
            IsRootOrAbsolute ((l ++ ps :: t).take (l.length + 1)) true = true then
          ((l ++ ps :: t).take (l.length + 1), (l ++ ps :: t).drop (l.length + 1))
        else
          ((if l.length = 0 then (l ++ ps :: t).take 1 else (l ++ ps :: t).take l.length),
           (if l.length = (l ++ ps :: t).length - 1 then []
            else (l ++ ps :: t).drop (l.length + 1))))) ∧
    SplitPathImpl ("c:\\foo\\bar".data) = ("c:\\foo".data, "bar".data) ∧
    SplitPathImpl ("c:\\foo".data) = ("c:\\".data, "foo".data) := by
  refine ⟨by decide, ?_, ?_, by decide, by decide⟩
  · intro p hp
    unfold SplitPathImpl
    rw [rfindSep_none_iff p |>.mpr hp]
  · intro l t ps hps ht
    rw [splitPathImpl_of_rfind (rfindSep_rightmost hps l t ht)]
    by_cases hcond : ((l.length == 2 || l.length == 6) &&
        IsRootOrAbsolute ((l ++ ps :: t).take (l.length + 1)) true) = true
    · rw [if_pos hcond]
      have hp : (l.length = 2 ∨ l.length = 6) ∧
          IsRootOrAbsolute ((l ++ ps :: t).take (l.length + 1)) true = true := by
        rcases (Bool.and_eq_true ..).mp hcond with ⟨h1, h2⟩
        exact ⟨by simpa using h1, h2⟩
      rw [if_pos hp]
    · rw [if_neg hcond]
      have hp : ¬((l.length = 2 ∨ l.length = 6) ∧
          IsRootOrAbsolute ((l ++ ps :: t).take (l.length + 1)) true = true) := by
        intro hx
        refine hcond ?_
        rcases hx with ⟨h1, h2⟩
        rw [h2]
        rcases h1 with he | he <;> rw [he] <;> simp
      rw [if_neg hp]
      have e1 : (if (l.length == 0) = true then (l ++ ps :: t).take 1
          else (l ++ ps :: t).take l.length) =
          (if l.length = 0 then (l ++ ps :: t).take 1 else (l ++ ps :: t).take l.length) :=
        if_congr (beq_iff_eq ..) rfl rfl
      have e2 : (if (l.length == (l ++ ps :: t).length - 1) = true then ([] : PathStr)
          else (l ++ ps :: t).drop (l.length + 1)) =
          (if l.length = (l ++ ps :: t).length - 1 then []
           else (l ++ ps :: t).drop (l.length + 1)) :=
        if_congr (beq_iff_eq ..) rfl rfl
      rw [e1, e2]

/-- C5 witness: the no-separator conjunct at the concrete input `abc`. -/
theorem c5_splitpath_spec_witness : SplitPathImpl ("abc".data) = ([], "abc".data) :=
  c5_splitpath_spec.2.1 ("abc".data) (by decide)

/-! Claim C10. -/

/-- C10: the predicate `IsDevNull` accepts exactly the literal `/dev/null` and the
3-character case-insensitive `nul`, rejecting everything else (including
`null`, `nul.txt` and the empty string); every accepted input is mapped by
`AsWindowsPath` to `NUL`, and `/dev/null` succeeds even though other inputs
beginning with a forward slash are rejected, because the null-device test
precedes the foreign-separator test. -/
theorem c10_isdevnull_spec (cwd p : PathStr) :
    (IsDevNull p = true ↔
      (p = ['/', 'd', 'e', 'v', '/', 'n', 'u', 'l', 'l'] ∨
        ∃ c0 c1 c2, p = [c0, c1, c2] ∧ (c0 = 'N' ∨ c0 = 'n') ∧
          (c1 = 'U' ∨ c1 = 'u') ∧ (c2 = 'L' ∨ c2 = 'l'))) ∧
    (IsDevNull p = true → AsWindowsPath cwd p = some (Except.ok ['N', 'U', 'L'])) ∧
    IsDevNull ("null".data) = false ∧
    IsDevNull ("nul.txt".data) = false ∧
    IsDevNull [] = false ∧
    AsWindowsPath cwd ("/dev/null".data) = some (Except.ok ['N', 'U', 'L']) ∧
    AsWindowsPath cwd ("/dev/nullo".data) = some (Except.error unixStyleErr) := by
  refine ⟨?_, ?_, by decide, by decide, by decide, ?_, ?_⟩
  · constructor
    · intro h
      unfold IsDevNull at h
      rcases (Bool.and_eq_true ..).mp h with ⟨_, hor⟩
      rcases (Bool.or_eq_true ..).mp hor with hdev | hnul
      · exact Or.inl ((beq_iff_eq ..).mp hdev)
      · right
        cases p with
        | nil => simp at hnul
        | cons c0 q1 =>
          cases q1 with
          | nil => simp at hnul
          | cons c1 q2 =>
            cases q2 with
            | nil => simp at hnul
            | cons c2 q3 =>
              cases q3 with
              | cons c3 q4 => simp at hnul
              | nil =>
                obtain ⟨⟨ha, hb⟩, hc⟩ :
                    ((c0 = 'N' ∨ c0 = 'n') ∧ (c1 = 'U' ∨ c1 = 'u')) ∧
                      (c2 = 'L' ∨ c2 = 'l') := by
                  simpa [Bool.and_eq_true, Bool.or_eq_true] using hnul
                exact ⟨c0, c1, c2, rfl, ha, hb, hc⟩
    · intro h
      rcases h with hdev | ⟨c0, c1, c2, rfl, h0, h1, h2⟩
      · rw [hdev]; decide
      · unfold IsDevNull
        rcases h0 with rfl | rfl <;> rcases h1 with rfl | rfl <;>
          rcases h2 with rfl | rfl <;> decide
  · intro hdev
    have hne : p.isEmpty = false := by
      unfold IsDevNull at hdev
      rcases (Bool.and_eq_true ..).mp hdev with ⟨h1, _⟩
      simpa using h1
    unfold AsWindowsPath
    rw [if_neg (by simp [hne]), if_pos hdev]
  · unfold AsWindowsPath
    rw [if_neg (by decide), if_pos (by decide)]
  · unfold AsWindowsPath
    rw [if_neg (by decide), if_neg (by decide), if_neg (by decide),
      if_neg (by decide), if_neg (by decide), if_pos (by decide)]

/-- C10 witness: the null-device mapping at the concrete input `NUL`. -/
theorem c10_isdevnull_spec_witness :
    AsWindowsPath ("c:\\w".data) ("NUL".data) = some (Except.ok ['N', 'U', 'L']) :=
  (c10_isdevnull_spec ("c:\\w".data) ("NUL".data)).2.1 (by decide)

/-! Claim C3. -/

/-- C3 counterexample: the function `AsAbsoluteWindowsPath` succeeds on the empty string
and on `NUL`, and neither result carries the long-path marker, refuting the
claim's universal marker guarantee which explicitly includes these
inputs. -/
theorem c3_marker_counterexample :
    AsAbsoluteWindowsPath ("c:\\w".data) [] = some (Except.ok []) ∧
    HasLongPathMarker [] = false ∧
    AsAbsoluteWindowsPath ("c:\\w".data) ("NUL".data) =
      some (Except.ok ['N', 'U', 'L']) ∧
    HasLongPathMarker ['N', 'U', 'L'] = false := by decide

theorem marker_after_add (t : PathStr) :
    HasLongPathMarker ('\\' :: '\\' :: '?' :: '\\' :: t) = true := by
  simp [HasLongPathMarker]

theorem asAbsolute_ok_marker (cwd p r : PathStr) (hne : p ≠ [])
    (hdev : IsDevNull p = false)
    (h : AsAbsoluteWindowsPath cwd p = some (Except.ok r)) :
    HasLongPathMarker r = true := by
  unfold AsAbsoluteWindowsPath at h
  rw [if_neg (by simp [hne]), if_neg (by simp [hdev])] at h
  cases haw : AsWindowsPath cwd p with
  | none => rw [haw] at h; exact absurd h (by simp)
  | some res =>
    cases res with
    | error e => rw [haw] at h; exact absurd h (by simp)
    | ok r0 =>
      rw [haw] at h
      simp only [Option.some.injEq, Except.ok.injEq] at h
      by_cases hab : IsRootOrAbsolute r0 false = true
      · by_cases hm2 : HasLongPathMarker r0 = true
        · simp only [hab, Bool.not_true, Bool.false_eq_true, if_false, hm2] at h
          rw [← h]
          exact hm2
        · have hm2f : HasLongPathMarker r0 = false := by simpa using hm2
          simp only [hab, Bool.not_true, Bool.false_eq_true, if_false, hm2f,
            Bool.not_false, if_true] at h
          rw [← h]
          exact marker_after_add _
      · have habf : IsRootOrAbsolute r0 false = false := by simpa using hab
        by_cases hm2 : HasLongPathMarker (cwd ++ '\\' :: r0) = true
        · simp only [habf, Bool.not_false, if_true, hm2, Bool.not_true,
            Bool.false_eq_true, if_false] at h
          rw [← h]
          exact hm2
        · have hm2f : HasLongPathMarker (cwd ++ '\\' :: r0) = false := by simpa using hm2
          simp only [habf, Bool.not_false, if_true, hm2f] at h
          rw [← h]
          exact marker_after_add _

/-- C3 (amended): for every non-empty, non-null-device input on which
`AsAbsoluteWindowsPath` succeeds, the result carries the long-path marker;
the empty string and the null-device aliases are the only successes without
it, short-circuited before the marker-adding step. -/
theorem c3_marker_amended (cwd p r : PathStr) (hne : p ≠ [])
    (hdev : IsDevNull p = false)
    (h : AsAbsoluteWindowsPath cwd p = some (Except.ok r)) :
    HasLongPathMarker r = true :=
  asAbsolute_ok_marker cwd p r hne hdev h

/-- C3 witness: the concrete relative input `foo` against the working
directory `c:\w` yields a marker-carrying absolute path. -/
theorem c3_marker_amended_witness :
    HasLongPathMarker ("\\\\?\\c:\\w\\foo".data) = true :=
  c3_marker_amended ("c:\\w".data) ("foo".data) ("\\\\?\\c:\\w\\foo".data)
    (by decide) (by decide) (by decide)

/-! Claim C2. -/

theorem shortWalk_stop {env : OsEnv} {w : PathStr}
    (h : (env.shortSize w == 0 && !IsRootDirectoryW w) = false) :
    ∀ (f : Nat) (segs : List PathStr),
      shortWalk env f w segs = (w, segs, env.shortSize w) := by
  intro f segs
  cases f with
  | zero => rfl
  | succ f =>
    simp only [shortWalk]
    rw [if_neg (by simp [h])]

theorem shortWalk_step {env : OsEnv} {w : PathStr}
    (h1 : env.shortSize w = 0) (h2 : IsRootDirectoryW w = false)
    (f : Nat) (segs : List PathStr) :
    shortWalk env (f + 1) w segs =
      shortWalk env f (SplitPathImpl w).1 ((SplitPathImpl w).2 :: segs) := by
  simp only [shortWalk]
  rw [if_pos (by simp [h1, h2])]

/-- C2 counterexample: with the oracle `probeEnvA` the size probe on the
absolute form of `c:\foo\bar` fails and the recorded failure reason is not
NotFound, yet `AsShortWindowsPath` retries the query on the parent and
returns success — the failure is neither propagated as an error nor left
unretried, refuting the claim that only does-not-exist failures are
retried. -/
theorem c2_shortpath_counterexample :
    probeEnvA.probeFailIsNotFound ("\\\\?\\c:\\foo\\bar".data) = false ∧
    probeEnvA.shortSize ("\\\\?\\c:\\foo\\bar".data) = 0 ∧
    AsAbsoluteWindowsPath probeEnvA.cwd ("c:\\foo\\bar".data) =
      some (Except.ok ("\\\\?\\c:\\foo\\bar".data)) ∧
    AsShortWindowsPath probeEnvA ("c:\\foo\\bar".data) =
      some (Except.ok ("c:\\foo12\\bar".data)) := by decide

theorem asShort_ok {env : OsEnv} {p w0 : PathStr} (hdev : IsDevNull p = false)
    (habs : AsAbsoluteWindowsPath env.cwd p = some (Except.ok w0)) :
    AsShortWindowsPath env p =
      (let w := shortWalk env (w0.length + 1) w0 []
       let wpath := w.1
       let wsuffix := buildSuffix (IsRootDirectoryW wpath) w.2.1
       if IsRootDirectoryW wpath then
         some (Except.ok (ToLower (RemoveUncPrefixMaybe wpath ++ wsuffix)))
       else
         let size := w.2.2
         let fill := env.shortBuf wpath size
         if decide (size - 1 ≠ fill.1) then some (Except.error shortPathErr)
         else some (Except.ok (ToLower (RemoveUncPrefixMaybe fill.2 ++ wsuffix)))) := by
  unfold AsShortWindowsPath
  rw [if_neg (by simp [hdev]), habs]

theorem rfindSep_lt_length :
    ∀ (p : PathStr) (pos : Nat), rfindSep p = some pos → pos < p.length := by
  intro p
  induction p with
  | nil => intro pos h; simp [rfindSep] at h
  | cons c cs ih =>
    intro pos h
    unfold rfindSep at h
    cases hcs : rfindSep cs with
    | some i =>
      rw [hcs] at h
      have hip : i + 1 = pos := by simpa using h
      have hi := ih i hcs
      simp only [List.length_cons]
      omega
    | none =>
      rw [hcs] at h
      by_cases hc : IsPathSeparator c = true
      · rw [if_pos hc] at h
        have h0 : 0 = pos := by simpa using h
        simp only [List.length_cons]
        omega
      · rw [if_neg hc] at h
        exact absurd h (by simp)

theorem marker_head {s : PathStr} (h : HasLongPathMarker s = true) :
    s.headD ' ' = '\\' := by
  cases s with
  | nil => exact absurd h (by decide)
  | cons a t =>
    cases t with
    | nil => exact absurd h (by simp [HasLongPathMarker])
    | cons b t2 =>
      cases t2 with
      | nil => exact absurd h (by simp [HasLongPathMarker])
      | cons c2 t3 =>
        cases t3 with
        | nil => exact absurd h (by simp [HasLongPathMarker])
        | cons d t4 =>
          unfold HasLongPathMarker at h
          rcases (Bool.and_eq_true ..).mp h with ⟨h1, _⟩
          rcases (Bool.and_eq_true ..).mp h1 with ⟨ha, _⟩
          have hav : a = '\\' := (beq_iff_eq ..).mp ha
          simp [hav]

theorem splitPath_shrink {w : PathStr} (hh : w.headD ' ' = '\\')
    (hr : IsRootDirectoryW w = false) :
    (SplitPathImpl w).1.length < w.length ∧
      (SplitPathImpl w).1.headD ' ' = '\\' := by
  cases w with
  | nil => exact absurd hh (by decide)
  | cons c t =>
    have hc : c = '\\' := by simpa using hh
    subst hc
    cases hfind : rfindSep ('\\' :: t) with
    | none =>
      have hx := (rfindSep_none_iff ('\\' :: t)).mp hfind '\\'
        (List.mem_cons_self _ _)
      exact absurd hx (by decide)
    | some pos =>
      have hlt := rfindSep_lt_length ('\\' :: t) pos hfind
      rw [splitPathImpl_of_rfind hfind]
      by_cases hcond : ((pos == 2 || pos == 6) &&
          IsRootOrAbsolute (('\\' :: t).take (pos + 1)) true) = true
      · rw [if_pos hcond]
        have hne : pos + 1 < ('\\' :: t).length := by
          rcases Nat.lt_or_ge (pos + 1) ('\\' :: t).length with h1 | h2
          · exact h1
          · exfalso
            have heq : ('\\' :: t).take (pos + 1) = '\\' :: t :=
              List.take_of_length_le h2
            rcases (Bool.and_eq_true ..).mp hcond with ⟨_, hroot2⟩
            rw [heq] at hroot2
            have hr2 : IsRootOrAbsolute ('\\' :: t) true = false := hr
            rw [hroot2] at hr2
            exact absurd hr2 (by simp)
        refine ⟨?_, ?_⟩
        · rw [List.length_take]
          exact Nat.lt_of_le_of_lt (Nat.min_le_left _ _) hne
        · rw [List.take_succ_cons]
          rfl
      · rw [if_neg hcond]
        by_cases hp0 : (pos == 0) = true
        · rw [if_pos hp0]
          cases t with
          | nil => exact absurd hr (by decide)
          | cons x t2 =>
            refine ⟨?_, ?_⟩
            · have h1 : (('\\' :: x :: t2).take 1).length = 1 := by
                rw [List.length_take]
                simp
              rw [h1]
              simp
            · rfl
        · rw [if_neg hp0]
          refine ⟨?_, ?_⟩
          · rw [List.length_take]
            exact Nat.lt_of_le_of_lt (Nat.min_le_left _ _) hlt
          · have hp1 : 1 ≤ pos := by
              rcases Nat.eq_zero_or_pos pos with h0 | h1
              · subst h0
                exact absurd (by decide) hp0
              · exact h1
            obtain ⟨k, hk⟩ : ∃ k, pos = k + 1 := ⟨pos - 1, by omega⟩
            subst hk
            rw [List.take_succ_cons]
            rfl

theorem shortWalk_final (env : OsEnv) :
    ∀ (fuel : Nat) (w : PathStr) (segs : List PathStr), w.length < fuel →
      w.headD ' ' = '\\' →
      env.shortSize (shortWalk env fuel w segs).1 ≠ 0 ∨
        IsRootDirectoryW (shortWalk env fuel w segs).1 = true := by
  intro fuel
  induction fuel with
  | zero =>
    intro w segs hlen hh
    exact absurd hlen (by omega)
  | succ fuel ih =>
    intro w segs hlen hh
    by_cases hsz : env.shortSize w = 0
    · by_cases hrt : IsRootDirectoryW w = true
      · rw [shortWalk_stop (by simp [hrt])]
        exact Or.inr hrt
      · have hrf : IsRootDirectoryW w = false := by simpa using hrt
        rw [shortWalk_step hsz hrf]
        obtain ⟨hshrink, hhead⟩ := splitPath_shrink hh hrf
        exact ih _ _ (by omega) hhead
    · rw [shortWalk_stop (by simp [hsz])]
      exact Or.inl hsz

/-- C2 (amended): the full retry discipline of `AsShortWindowsPath`. A
failure of the size-probing OS query — for any failure reason, which the
code never inspects — splits off the trailing segment and retries on the
parent (part 1); the walk repeats this until a probe succeeds or the
remaining path is a root directory, which always happens within the fuel
bound (part 2); a walk ending at a root returns the root with the stripped
segments re-appended as success (part 3); a walk ending at a successful
probe returns the buffer query's text with the stripped segments
re-appended when the buffer fill matches the probed size, and the
fixed short-path error otherwise (part 4); the only OS failure ever
propagated as an error is that buffer-fill disagreement — every other
returned error comes from `AsAbsoluteWindowsPath` before any probe
(part 5); concretely, a two-level walk succeeds on the grandparent
(part 6) and an everywhere-failing oracle walks to the root and still
succeeds (part 7). -/
theorem c2_shortpath_retry_amended :
    (∀ (env : OsEnv) (w : PathStr) (segs : List PathStr) (fuel : Nat),
      env.shortSize w = 0 → IsRootDirectoryW w = false →
      shortWalk env (fuel + 1) w segs =
        shortWalk env fuel (SplitPathImpl w).1 ((SplitPathImpl w).2 :: segs)) ∧
    (∀ (env : OsEnv) (p w0 : PathStr), p ≠ [] → IsDevNull p = false →
      AsAbsoluteWindowsPath env.cwd p = some (Except.ok w0) →
      env.shortSize (shortWalk env (w0.length + 1) w0 []).1 ≠ 0 ∨
        IsRootDirectoryW (shortWalk env (w0.length + 1) w0 []).1 = true) ∧
    (∀ (env : OsEnv) (p w0 : PathStr), IsDevNull p = false →
      AsAbsoluteWindowsPath env.cwd p = some (Except.ok w0) →
      IsRootDirectoryW (shortWalk env (w0.length + 1) w0 []).1 = true →
      AsShortWindowsPath env p = some (Except.ok (ToLower
        (RemoveUncPrefixMaybe (shortWalk env (w0.length + 1) w0 []).1 ++
          buildSuffix true (shortWalk env (w0.length + 1) w0 []).2.1)))) ∧
    (∀ (env : OsEnv) (p w0 : PathStr), IsDevNull p = false →
      AsAbsoluteWindowsPath env.cwd p = some (Except.ok w0) →
      IsRootDirectoryW (shortWalk env (w0.length + 1) w0 []).1 = false →
      ((env.shortBuf (shortWalk env (w0.length + 1) w0 []).1
            (shortWalk env (w0.length + 1) w0 []).2.2).1 =
          (shortWalk env (w0.length + 1) w0 []).2.2 - 1 →
        AsShortWindowsPath env p = some (Except.ok (ToLower
          (RemoveUncPrefixMaybe
            (env.shortBuf (shortWalk env (w0.length + 1) w0 []).1
              (shortWalk env (w0.length + 1) w0 []).2.2).2 ++
            buildSuffix false (shortWalk env (w0.length + 1) w0 []).2.1)))) ∧
      ((env.shortBuf (shortWalk env (w0.length + 1) w0 []).1
            (shortWalk env (w0.length + 1) w0 []).2.2).1 ≠
          (shortWalk env (w0.length + 1) w0 []).2.2 - 1 →
        AsShortWindowsPath env p = some (Except.error shortPathErr))) ∧
    (∀ (env : OsEnv) (p : PathStr) (e : String),
      AsShortWindowsPath env p = some (Except.error e) →
      e = shortPathErr ∨
        AsAbsoluteWindowsPath env.cwd p = some (Except.error e)) ∧
    AsShortWindowsPath probeEnvC ("c:\\g\\x\\y".data) =
      some (Except.ok ("c:\\g165\\x\\y".data)) ∧
    AsShortWindowsPath probeEnvFail ("x".data) =
      some (Except.ok ("c:\\w\\x".data)) := by
  refine ⟨?_, ?_, ?_, ?_, ?_, by decide, by decide⟩
  · intro env w segs fuel h1 h2
    exact shortWalk_step h1 h2 fuel segs
  · intro env p w0 hne hdev habs
    have hmk := asAbsolute_ok_marker env.cwd p w0 hne hdev habs
    exact shortWalk_final env (w0.length + 1) w0 [] (by omega) (marker_head hmk)
  · intro env p w0 hdev habs hroot
    rw [asShort_ok hdev habs]
    revert hroot
    generalize shortWalk env (w0.length + 1) w0 [] = res
    obtain ⟨wf, segsf, szf⟩ := res
    intro hroot
    simp [hroot]
  · intro env p w0 hdev habs hroot
    refine ⟨?_, ?_⟩
    · intro hfill
      rw [asShort_ok hdev habs]
      revert hroot hfill
      generalize shortWalk env (w0.length + 1) w0 [] = res
      obtain ⟨wf, segsf, szf⟩ := res
      intro hroot hfill
      simp [hroot, hfill]
    · intro hfillne
      rw [asShort_ok hdev habs]
      revert hroot hfillne
      generalize shortWalk env (w0.length + 1) w0 [] = res
      obtain ⟨wf, segsf, szf⟩ := res
      intro hroot hfillne
      simp [hroot, Ne.symm hfillne]
  · intro env p e he
    unfold AsShortWindowsPath at he
    by_cases hdev : IsDevNull p = true
    · rw [if_pos hdev] at he
      exact absurd he (by simp)
    · rw [if_neg hdev] at he
      cases habs : AsAbsoluteWindowsPath env.cwd p with
      | none =>
        rw [habs] at he
        exact absurd he (by simp)
      | some res =>
        cases res with
        | error e2 =>
          rw [habs] at he
          have he2 : e2 = e := by simpa using he
          subst he2
          exact Or.inr rfl
        | ok w0 =>
          rw [habs] at he
          left
          have he3 : (if IsRootDirectoryW (shortWalk env (w0.length + 1) w0 []).1
              then
                some (Except.ok (ToLower (RemoveUncPrefixMaybe
                  (shortWalk env (w0.length + 1) w0 []).1 ++
                  buildSuffix
                    (IsRootDirectoryW (shortWalk env (w0.length + 1) w0 []).1)
                    (shortWalk env (w0.length + 1) w0 []).2.1)))
              else if decide ((shortWalk env (w0.length + 1) w0 []).2.2 - 1 ≠
                  (env.shortBuf (shortWalk env (w0.length + 1) w0 []).1
                    (shortWalk env (w0.length + 1) w0 []).2.2).1) then
                some (Except.error shortPathErr)
              else
                some (Except.ok (ToLower (RemoveUncPrefixMaybe
                  (env.shortBuf (shortWalk env (w0.length + 1) w0 []).1
                    (shortWalk env (w0.length + 1) w0 []).2.2).2 ++
                  buildSuffix
                    (IsRootDirectoryW (shortWalk env (w0.length + 1) w0 []).1)
                    (shortWalk env (w0.length + 1) w0 []).2.1)))) =
              some (Except.error e) := he
          by_cases hrt :
              IsRootDirectoryW (shortWalk env (w0.length + 1) w0 []).1 = true
          · rw [if_pos hrt] at he3
            exact absurd he3 (by simp)
          · rw [if_neg hrt] at he3
            by_cases hfl : decide ((shortWalk env (w0.length + 1) w0 []).2.2 - 1 ≠
                (env.shortBuf (shortWalk env (w0.length + 1) w0 []).1
                  (shortWalk env (w0.length + 1) w0 []).2.2).1) = true
            · rw [if_pos hfl] at he3
              have hee : shortPathErr = e := by simpa using he3
              exact hee.symm
            · rw [if_neg hfl] at he3
              exact absurd he3 (by simp)

/-- C2 witness: part 4's success branch applied at the concrete oracle
`probeEnvB` and input `c:\a\b`, whose probe fails on the absolute form and
succeeds on the parent, yielding the lower-cased short form with the leaf
re-appended. -/
theorem c2_shortpath_retry_amended_witness :
    AsShortWindowsPath probeEnvB ("c:\\a\\b".data) =
      some (Except.ok ("c:\\a160\\b".data)) := by
  have h := (c2_shortpath_retry_amended.2.2.2.1 probeEnvB ("c:\\a\\b".data)
    ("\\\\?\\c:\\a\\b".data) (by decide) (by decide) (by decide)).1 (by decide)
  rw [h]
  decide

/-! Claim C7. -/

/-- C7 counterexample: the function `AsWindowsPath` is not idempotent on all of its
successes: the input dot-backslash-nul succeeds with the lower-case output
`nul`, but re-applying the function to that output yields `NUL`, a
different string (the null-device branch rewrites it). -/
theorem c7_idempotence_counterexample :
    AsWindowsPath ("c:\\w".data) (".\\nul".data) = some (Except.ok ("nul".data)) ∧
    AsWindowsPath ("c:\\w".data) ("nul".data) = some (Except.ok ("NUL".data)) ∧
    ("nul".data : PathStr) ≠ "NUL".data := by decide

/-- C7 (amended): for every success `r` of `AsWindowsPath`, provided `r` is
not a case-variant null-device alias other than the canonical `NUL` and `r`
does not begin with a drive specifier lacking a following separator,
re-applying `AsWindowsPath` returns `r` unchanged. -/
theorem c7_idempotent_amended (cwd p r : PathStr)
    (h : AsWindowsPath cwd p = some (Except.ok r))
    (hdev : IsDevNull r = true → r = ['N', 'U', 'L'])
    (hdrel : (HasDriveSpecifier r && (decide (r.length < 3) ||
      !IsPathSeparator (r.getD 2 ' '))) = false) :
    AsWindowsPath cwd r = some (Except.ok r) := by
  unfold AsWindowsPath at h
  by_cases h0 : p.isEmpty = true
  · rw [if_pos h0] at h
    have hr : [] = r := by simpa using h
    rw [← hr]
    rfl
  · rw [if_neg h0] at h
    by_cases hdv : IsDevNull p = true
    · rw [if_pos hdv] at h
      have hr : (['N', 'U', 'L'] : PathStr) = r := by simpa using h
      rw [← hr]
      unfold AsWindowsPath
      rw [if_neg (by decide), if_pos (by decide)]
    · rw [if_neg hdv] at h
      by_cases hunc : HasLongPathMarker p = true
      · rw [if_pos hunc] at h
        have hr : p = r := by simpa using h
        rw [← hr]
        unfold AsWindowsPath
        rw [if_neg h0, if_neg hdv, if_pos hunc]
      · rw [if_neg hunc] at h
        by_cases hnet : (IsPathSeparator (p.headD ' ') && decide (1 < p.length) &&
            IsPathSeparator (p.getD 1 ' ')) = true
        · rw [if_pos hnet] at h; exact absurd h (by simp)
        · rw [if_neg hnet] at h
          by_cases hdr2 : (HasDriveSpecifier p && (decide (p.length < 3) ||
              !IsPathSeparator (p.getD 2 ' '))) = true
          · rw [if_pos hdr2] at h; exact absurd h (by simp)
          · rw [if_neg hdr2] at h
            by_cases hux : (p.headD ' ' == '/') = true
            · rw [if_pos hux] at h; exact absurd h (by simp)
            · rw [if_neg hux] at h
              have h2 : Option.map Except.ok
                  (NormalizeWindowsPath (if (p.headD ' ' == '\\') = true
                    then GetCurrentDrive cwd :: ':' :: p else p)) =
                  some (Except.ok r) := h
              have hn : NormalizeWindowsPath (if (p.headD ' ' == '\\') = true
                  then GetCurrentDrive cwd :: ':' :: p else p) = some r := by
                cases hopt : NormalizeWindowsPath (if (p.headD ' ' == '\\') = true
                    then GetCurrentDrive cwd :: ':' :: p else p) with
                | none => rw [hopt] at h2; exact absurd h2 (by simp)
                | some v =>
                  rw [hopt] at h2
                  have hv : v = r := by simpa using h2
                  rw [hv]
              have hfix := normalize_fix hn
              rcases normalize_some hn with hr0 | ⟨d, hdal, hr1⟩ | ⟨segs, hne, hclean, hds, hr2⟩
              · rw [hr0]
                rfl
              · subst hr1
                have hdsep : IsPathSeparator d = false := isAlpha_not_sep hdal
                have hor : (d == '/') = false ∧ (d == '\\') = false := by
                  simpa only [IsPathSeparator, Bool.or_eq_false_iff] using hdsep
                have hdv2 : IsDevNull [d, ':', '\\'] = false := by
                  rcases Bool.eq_false_or_eq_true (IsDevNull [d, ':', '\\']) with ht | hf
                  · have h3 := hdev ht
                    injection h3 with e1 e2
                    injection e2 with e3 e4
                    exact absurd e3 (by decide)
                  · exact hf
                unfold AsWindowsPath
                rw [if_neg (by simp), if_neg (by simp [hdv2]),
                  if_neg (by simp [marker_false_of_head hor.2])]
                rw [if_neg (by simp [hdsep])]
                rw [if_neg (by simp [IsPathSeparator])]
                rw [if_neg (by simp [hor.1])]
                show Option.map Except.ok
                  (NormalizeWindowsPath (if (([d, ':', '\\'] : PathStr).headD ' ' == '\\') = true
                    then GetCurrentDrive cwd :: ':' :: [d, ':', '\\'] else [d, ':', '\\'])) =
                  some (Except.ok [d, ':', '\\'])
                rw [if_neg (by simp [hor.2]), hfix]
                rfl
              · obtain ⟨c, t2, hj, hcsep⟩ := joinSegs_head_nonsep hne hclean
                have hrc : r = c :: t2 := by rw [hr2, hj]
                have hor : (c == '/') = false ∧ (c == '\\') = false := by
                  simpa only [IsPathSeparator, Bool.or_eq_false_iff] using hcsep
                by_cases hdvr : IsDevNull r = true
                · rw [hdev hdvr]
                  unfold AsWindowsPath
                  rw [if_neg (by decide), if_pos (by decide)]
                · have hdvf : IsDevNull r = false := by simpa using hdvr
                  have hre : r.isEmpty = false := by rw [hrc]; rfl
                  have hmk : HasLongPathMarker r = false := by
                    rw [hrc]; exact marker_false_of_head hor.2 t2
                  have hnetr : (IsPathSeparator (r.headD ' ') && decide (1 < r.length) &&
                      IsPathSeparator (r.getD 1 ' ')) = false := by
                    rw [hrc]; simp [hcsep]
                  have huxr : (r.headD ' ' == '/') = false := by
                    rw [hrc]; simpa using hor.1
                  have hbkr : (r.headD ' ' == '\\') = false := by
                    rw [hrc]; simpa using hor.2
                  unfold AsWindowsPath
                  rw [if_neg (by rw [hre]; simp)]
                  rw [if_neg (by rw [hdvf]; simp)]
                  rw [if_neg (by rw [hmk]; simp)]
                  rw [if_neg (by rw [hnetr]; simp)]
                  rw [if_neg (by rw [hdrel]; simp)]
                  rw [if_neg (by rw [huxr]; simp)]
                  show Option.map Except.ok
                    (NormalizeWindowsPath (if (r.headD ' ' == '\\') = true
                      then GetCurrentDrive cwd :: ':' :: r else r)) =
                    some (Except.ok r)
                  rw [if_neg (by rw [hbkr]; simp), hfix]
                  rfl

/-- C7 witness: the amended statement discharged at the concrete relative
path `foo`, a fixed point of the converter. -/
theorem c7_idempotent_amended_witness :
    AsWindowsPath ("c:\\w".data) ("foo".data) = some (Except.ok ("foo".data)) :=
  c7_idempotent_amended ("c:\\w".data) ("foo".data) ("foo".data)
    (by decide) (by decide) (by decide)

/-! Claim C6. -/

/-- C6: the function `AsWindowsPath` never terminates the process, and it returns a
recoverable error exactly for non-empty, non-null-device, non-marker
inputs that begin with two consecutive separators (the network error), or
carry a drive specifier without a following separator (the
working-directory-relative error), or begin with a single forward slash
(the foreign-convention error) — in that priority order, each with its
stated message. -/
theorem c6_aswindowspath_errors (cwd p : PathStr)
    (hdrive : GetCurrentDrive cwd ≠ '/') :
    AsWindowsPath cwd p ≠ none ∧
    (AsWindowsPath cwd p = some (Except.error networkErr) ↔
      p ≠ [] ∧ IsDevNull p = false ∧ HasLongPathMarker p = false ∧
        (IsPathSeparator (p.headD ' ') && decide (1 < p.length) &&
          IsPathSeparator (p.getD 1 ' ')) = true) ∧
    (AsWindowsPath cwd p = some (Except.error driveRelativeErr) ↔
      p ≠ [] ∧ IsDevNull p = false ∧ HasLongPathMarker p = false ∧
        (IsPathSeparator (p.headD ' ') && decide (1 < p.length) &&
          IsPathSeparator (p.getD 1 ' ')) = false ∧
        (HasDriveSpecifier p && (decide (p.length < 3) ||
          !IsPathSeparator (p.getD 2 ' '))) = true) ∧
    (AsWindowsPath cwd p = some (Except.error unixStyleErr) ↔
      p ≠ [] ∧ IsDevNull p = false ∧ HasLongPathMarker p = false ∧
        (IsPathSeparator (p.headD ' ') && decide (1 < p.length) &&
          IsPathSeparator (p.getD 1 ' ')) = false ∧
        (HasDriveSpecifier p && (decide (p.length < 3) ||
          !IsPathSeparator (p.getD 2 ' '))) = false ∧
        p.headD ' ' = '/') ∧
    (∀ e, AsWindowsPath cwd p = some (Except.error e) →
      e = networkErr ∨ e = driveRelativeErr ∨ e = unixStyleErr) := by
  have m1 : networkErr ≠ driveRelativeErr := by decide
  have m2 : networkErr ≠ unixStyleErr := by decide
  have m3 : driveRelativeErr ≠ unixStyleErr := by decide
  have bool_tf : ∀ {b : Bool}, b = true → b = false → False := by
    intro b h1 h2
    rw [h1] at h2
    exact absurd h2 (by simp)
  by_cases h0 : p.isEmpty = true
  · have hpnil : p = [] := by simpa using h0
    subst hpnil
    have hp : AsWindowsPath cwd [] = some (Except.ok []) := by
      unfold AsWindowsPath
      rw [if_pos (show ([] : PathStr).isEmpty = true from rfl)]
    refine ⟨by simp [hp], ?_, ?_, ?_, by simp [hp]⟩
    · exact iff_of_false (by simp [hp]) (fun hx => hx.1 rfl)
    · exact iff_of_false (by simp [hp]) (fun hx => hx.1 rfl)
    · exact iff_of_false (by simp [hp]) (fun hx => hx.1 rfl)
  · have hne : p ≠ [] := by simpa using h0
    by_cases hdv : IsDevNull p = true
    · have hp : AsWindowsPath cwd p = some (Except.ok ['N', 'U', 'L']) := by
        unfold AsWindowsPath
        rw [if_neg h0, if_pos hdv]
      refine ⟨by simp [hp], ?_, ?_, ?_, by simp [hp]⟩
      · exact iff_of_false (by simp [hp]) (fun hx => bool_tf hdv hx.2.1)
      · exact iff_of_false (by simp [hp]) (fun hx => bool_tf hdv hx.2.1)
      · exact iff_of_false (by simp [hp]) (fun hx => bool_tf hdv hx.2.1)
    · have hdvf : IsDevNull p = false := by simpa using hdv
      by_cases hunc : HasLongPathMarker p = true
      · have hp : AsWindowsPath cwd p = some (Except.ok p) := by
          unfold AsWindowsPath
          rw [if_neg h0, if_neg hdv, if_pos hunc]
        refine ⟨by simp [hp], ?_, ?_, ?_, by simp [hp]⟩
        · exact iff_of_false (by simp [hp]) (fun hx => bool_tf hunc hx.2.2.1)
        · exact iff_of_false (by simp [hp]) (fun hx => bool_tf hunc hx.2.2.1)
        · exact iff_of_false (by simp [hp]) (fun hx => bool_tf hunc hx.2.2.1)
      · have huncf : HasLongPathMarker p = false := by simpa using hunc
        by_cases hnet : (IsPathSeparator (p.headD ' ') && decide (1 < p.length) &&
            IsPathSeparator (p.getD 1 ' ')) = true
        · have hp : AsWindowsPath cwd p = some (Except.error networkErr) := by
            unfold AsWindowsPath
            rw [if_neg h0, if_neg hdv, if_neg hunc, if_pos hnet]
          refine ⟨by simp [hp], ?_, ?_, ?_, ?_⟩
          · exact iff_of_true hp ⟨hne, hdvf, huncf, hnet⟩
          · exact iff_of_false (by simp [hp, m1]) (fun hx => bool_tf hnet hx.2.2.2.1)
          · exact iff_of_false (by simp [hp, m2]) (fun hx => bool_tf hnet hx.2.2.2.1)
          · intro e he
            rw [hp] at he
            exact Or.inl (Except.error.inj (Option.some.inj he)).symm
        · have hnetf : (IsPathSeparator (p.headD ' ') && decide (1 < p.length) &&
              IsPathSeparator (p.getD 1 ' ')) = false := by simpa using hnet
          by_cases hdr : (HasDriveSpecifier p && (decide (p.length < 3) ||
              !IsPathSeparator (p.getD 2 ' '))) = true
          · have hp : AsWindowsPath cwd p = some (Except.error driveRelativeErr) := by
              unfold AsWindowsPath
              rw [if_neg h0, if_neg hdv, if_neg hunc, if_neg hnet, if_pos hdr]
            refine ⟨by simp [hp], ?_, ?_, ?_, ?_⟩
            · exact iff_of_false (by simp [hp, Ne.symm m1])
                (fun hx => bool_tf hx.2.2.2 hnetf)
            · exact iff_of_true hp ⟨hne, hdvf, huncf, hnetf, hdr⟩
            · exact iff_of_false (by simp [hp, m3])
                (fun hx => bool_tf hdr hx.2.2.2.2.1)
            · intro e he
              rw [hp] at he
              exact Or.inr (Or.inl (Except.error.inj (Option.some.inj he)).symm)
          · have hdrf : (HasDriveSpecifier p && (decide (p.length < 3) ||
                !IsPathSeparator (p.getD 2 ' '))) = false := by simpa using hdr
            by_cases hux : (p.headD ' ' == '/') = true
            · have hp : AsWindowsPath cwd p = some (Except.error unixStyleErr) := by
                unfold AsWindowsPath
                rw [if_neg h0, if_neg hdv, if_neg hunc, if_neg hnet, if_neg hdr,
                  if_pos hux]
              have hux2 : p.headD ' ' = '/' := (beq_iff_eq ..).mp hux
              refine ⟨by simp [hp], ?_, ?_, ?_, ?_⟩
              · exact iff_of_false (by simp [hp, Ne.symm m2])
                  (fun hx => bool_tf hx.2.2.2 hnetf)
              · exact iff_of_false (by simp [hp, Ne.symm m3])
                  (fun hx => bool_tf hx.2.2.2.2 hdrf)
              · exact iff_of_true hp ⟨hne, hdvf, huncf, hnetf, hdrf, hux2⟩
              · intro e he
                rw [hp] at he
                exact Or.inr (Or.inr (Except.error.inj (Option.some.inj he)).symm)
            · have huxf : p.headD ' ' ≠ '/' := by simpa using hux
              have hmut : ((if (p.headD ' ' == '\\') = true
                  then GetCurrentDrive cwd :: ':' :: p else p).headD ' ' == '/') = false := by
                by_cases hbk : (p.headD ' ' == '\\') = true
                · rw [if_pos hbk]
                  simpa using hdrive
                · rw [if_neg hbk]
                  simpa using huxf
              obtain ⟨r, hr⟩ := normalize_total hmut
              have hp : AsWindowsPath cwd p = some (Except.ok r) := by
                unfold AsWindowsPath
                rw [if_neg h0, if_neg hdv, if_neg hunc, if_neg hnet, if_neg hdr,
                  if_neg hux]
                show Option.map Except.ok
                  (NormalizeWindowsPath (if (p.headD ' ' == '\\') = true
                    then GetCurrentDrive cwd :: ':' :: p else p)) =
                  some (Except.ok r)
                rw [hr]
                rfl
              refine ⟨by simp [hp], ?_, ?_, ?_, ?_⟩
              · exact iff_of_false (by simp [hp]) (fun hx => bool_tf hx.2.2.2 hnetf)
              · exact iff_of_false (by simp [hp]) (fun hx => bool_tf hx.2.2.2.2 hdrf)
              · exact iff_of_false (by simp [hp]) (fun hx => huxf hx.2.2.2.2.2)
              · intro e he
                rw [hp] at he
                exact absurd he (by simp)

/-- C6 witness: the network-path rejection discharged at the concrete input
of two forward slashes followed by the letter x. -/
theorem c6_aswindowspath_errors_witness :
    AsWindowsPath ("c:\\w".data) ("//x".data) = some (Except.error networkErr) :=
  ((c6_aswindowspath_errors ("c:\\w".data) ("//x".data) (by decide)).2.1).mpr
    (by refine ⟨by decide, by decide, by decide, by decide⟩)

end BlazeUtil
